import Mathlib

/-!
Shallow embedding of `glazier/lib/download.py` (HTTPS file downloader):
locator classification, template transformation, path compilation, the
retry gate, the stream-opening loop, stream-to-disk writing with size
validation, and SHA-256 verification.  Network and filesystem effects are
modelled by explicit scripts (per-iteration `urlopen` outcomes, chunk
lists, an abstract filesystem size map), so every definition is
executable on concrete inputs.
-/

namespace GlazierDownload

/-- Chunk size used by the write loop (`CHUNK_BYTE_SIZE = 65536`). -/
def CHUNK_BYTE_SIZE : Nat := 65536

/-- Fixed sleep interval in seconds (`SLEEP = 20`). -/
def SLEEP : Nat := 20

/-- Model of Python `str.strip()`: removes leading and trailing whitespace. -/
def stripWS (s : String) : String :=
  ⟨((s.data.dropWhile Char.isWhitespace).reverse.dropWhile
      Char.isWhitespace).reverse⟩

/-- Prefix test on character lists (model of Python `str.startswith`). -/
def hasPre : List Char → List Char → Bool
  | [], _ => true
  | _ :: _, [] => false
  | p :: ps, c :: cs => p == c && hasPre ps cs

/-- Model of Python `str.startswith`. -/
def startsWithS (s pre : String) : Bool :=
  hasPre pre.data s.data

/-- Embeds `IsLocal`: `re.match(r'[A-Z,a-z]\:', string)` — first character in
the class `[A-Z,a-z]` (note the literal comma) followed by a colon. -/
def IsLocal (s : String) : Bool :=
  match s.data with
  | c1 :: c2 :: _ => (c1.isUpper || c1 == ',' || c1.isLower) && c2 == ':'
  | _ => false

/-- Embeds `IsRemote`: `re.match(r'http(s)?:', string, re.I)` — a
case-insensitive `http:` or `https:` prefix. -/
def IsRemote (s : String) : Bool :=
  let t : List Char := s.data.map Char.toLower
  hasPre "https:".data t || hasPre "http:".data t

/-- Result of one call to the retry gate `_AttemptResource`: either it slept
for a number of seconds and returned, or it raised `DownloadError msg`. -/
inductive AttemptResult where
  | sleep (seconds : Nat)
  | raiseErr (msg : String)
  deriving Repr, DecidableEq

/-- Embeds `BaseDownloader._AttemptResource(attempt, max_retries, resource)`:
negative `max_retries` always sleeps (unlimited retries); `attempt <
max_retries` sleeps; otherwise raises `DownloadError`. -/
def attemptResource (attempt : Int) (maxRetries : Int) (resource : String) :
    AttemptResult :=
  if maxRetries < 0 then .sleep SLEEP
  else if attempt < maxRetries then .sleep SLEEP
  else .raiseErr ("Failed to reach " ++ resource ++ " after " ++
    toString maxRetries ++ " attempt(s).")

/-! URL parsing: the `netloc` component of `urllib.parse.urlparse`, as used
by `_OpenStream` to reject URLs with no host. -/

/-- Characters allowed in a URL scheme (letters, digits, `+`, `-`, `.`). -/
def schemeChar (c : Char) : Bool :=
  c.isAlpha || c.isDigit || c == '+' || c == '-' || c == '.'

/-- Splits a character list at the first colon, returning the parts before
and after it. -/
def splitColon : List Char → Option (List Char × List Char)
  | [] => none
  | c :: rest =>
    if c = ':' then some ([], rest)
    else
      match splitColon rest with
      | some (pre, post) => some (c :: pre, post)
      | none => none

/-- Drops a leading `scheme:` from a URL when the part before the first
colon is a nonempty scheme beginning with a letter. -/
def afterScheme (s : List Char) : List Char :=
  match splitColon s with
  | some (c :: pre, post) =>
    if c.isAlpha && (c :: pre).all schemeChar then post else s
  | _ => s

/-- The `netloc` (host) component of a URL: present only when, after
removing the scheme, the remainder starts with `//`; it extends to the next
`/`, `?` or `#`. -/
def netlocOf (s : String) : String :=
  match afterScheme s.data with
  | '/' :: '/' :: t =>
    ⟨t.takeWhile (fun c => !(c == '/' || c == '?' || c == '#'))⟩
  | _ => ""

/-! The `_OpenStream` loop.  The network is modelled by a script: one entry
per loop iteration, `some s` meaning `urlopen` produced stream `s`, `none`
meaning both `urlopen` sub-attempts failed with a caught error.  As in the
source, the `file_stream` variable is not reset on a failed attempt, so a
stale stream from an earlier iteration is re-examined. -/

/-- A response stream as seen by `_OpenStream`: its status code
(`getcode()`) and its resolved URL (`geturl()`). -/
structure RStream where
  code : Int
  loc : String
  deriving Repr, DecidableEq

/-- Result of `_OpenStream`. -/
inductive OpenRes where
  | stream (s : RStream)
  | errInvalidUrl (msg : String)
  | errCode (msg : String)
  | errRetry (msg : String)
  | outOfScript
  deriving Repr, DecidableEq

/-- Trace of one `_OpenStream` run: the result, how many sleeps the retry
gate performed, and how many network open attempts were made. -/
structure OpenTrace where
  result : OpenRes
  sleeps : Nat
  netCalls : Nat
  deriving Repr, DecidableEq

/-- Embeds the `while True` loop of `_OpenStream` (lines 233-265): each
iteration increments `attempt`, attempts `urlopen` (scripted), then checks
the current stream: an acceptable code returns it, a 302 updates the
working URL to the redirect target and falls through to the retry gate,
any other code raises; with no stream the retry gate runs directly. -/
def openLoop (codes : List Int) (maxRetries : Int) :
    List (Option RStream) → String → Option RStream → Int → Nat → Nat →
    OpenTrace
  | [], _, _, _, sleeps, calls => ⟨.outOfScript, sleeps, calls⟩
  | o :: rest, url, fsPrev, attempt0, sleeps, calls0 =>
    let attempt := attempt0 + 1
    let calls := calls0 + 1
    let fs : Option RStream :=
      match o with
      | some s => some s
      | none => fsPrev
    match fs with
    | some st =>
      if st.code ∈ codes then ⟨.stream st, sleeps, calls⟩
      else if st.code = 302 then
        match attemptResource attempt maxRetries "file download" with
        | .sleep _ =>
          openLoop codes maxRetries rest st.loc fs attempt (sleeps + 1) calls
        | .raiseErr m => ⟨.errRetry m, sleeps, calls⟩
      else
        ⟨.errCode ("Invalid return code for file " ++ url ++ ". [" ++
          toString st.code ++ "]"), sleeps, calls⟩
    | none =>
      match attemptResource attempt maxRetries "file download" with
      | .sleep _ =>
        openLoop codes maxRetries rest url none attempt (sleeps + 1) calls
      | .raiseErr m => ⟨.errRetry m, sleeps, calls⟩

/-- Embeds `BaseDownloader._OpenStream`: strip the URL, reject it when its
parse has no `netloc` (before any network call), default the acceptable
status codes to `[200]` (`status_codes or [200]`), then run the attempt
loop. -/
def openStream (script : List (Option RStream)) (url : String)
    (maxRetries : Int) (statusCodes : Option (List Int)) : OpenTrace :=
  let url := stripWS url
  if netlocOf url = "" then
    ⟨.errInvalidUrl ("Invalid remote server URL \"" ++ url ++ "\"."), 0, 0⟩
  else
    let codes :=
      match statusCodes with
      | some (c :: cs) => c :: cs
      | _ => [200]
    openLoop codes maxRetries script url none 0 0 0

lemma attemptResource_sleep (n mr : Int) (r : String) (h : n < mr ∨ mr < 0) :
    attemptResource n mr r = .sleep SLEEP := by
  unfold attemptResource
  rcases h with h | h
  · by_cases h2 : mr < 0 <;> simp [h, h2]
  · simp [h]

lemma attemptResource_raise (n mr : Int) (r : String) (h1 : 0 ≤ mr)
    (h2 : mr ≤ n) :
    attemptResource n mr r = .raiseErr ("Failed to reach " ++ r ++ " after " ++
      toString mr ++ " attempt(s).") := by
  unfold attemptResource
  rw [if_neg (by omega), if_neg (by omega)]

/-- C2: the retry gate `_AttemptResource` sleeps the fixed 20-second
interval when `maxRetries` is negative (unlimited attempts) or when
`attempt < maxRetries`, and otherwise raises `DownloadError` naming the
resource and the attempt count; it raises exactly when `maxRetries` is
non-negative and `attempt ≥ maxRetries`. -/
theorem attemptResource_spec (n mr : Int) (res : String) :
    (mr < 0 → attemptResource n mr res = .sleep 20) ∧
    (0 ≤ mr → n < mr → attemptResource n mr res = .sleep 20) ∧
    (0 ≤ mr → mr ≤ n → attemptResource n mr res =
      .raiseErr ("Failed to reach " ++ res ++ " after " ++ toString mr ++
        " attempt(s).")) ∧
    ((∃ m, attemptResource n mr res = .raiseErr m) ↔ 0 ≤ mr ∧ mr ≤ n) := by
  refine ⟨fun h => attemptResource_sleep n mr res (Or.inr h),
    fun _ h => attemptResource_sleep n mr res (Or.inl h),
    fun h1 h2 => attemptResource_raise n mr res h1 h2, ?_, ?_⟩
  · rintro ⟨m, hm⟩
    by_cases h1 : mr < 0
    · rw [attemptResource_sleep n mr res (Or.inr h1)] at hm; exact absurd hm (by simp)
    · by_cases h2 : n < mr
      · rw [attemptResource_sleep n mr res (Or.inl h2)] at hm; exact absurd hm (by simp)
      · omega
  · rintro ⟨h1, h2⟩
    exact ⟨_, attemptResource_raise n mr res h1 h2⟩

theorem attemptResource_spec_witness :
    attemptResource 3 3 "file download" =
      .raiseErr ("Failed to reach " ++ "file download" ++ " after " ++
        toString (3 : Int) ++ " attempt(s).") ∧
    attemptResource 1 3 "file download" = .sleep 20 :=
  ⟨(attemptResource_spec 3 3 "file download").2.2.1 (by decide) (by decide),
   (attemptResource_spec 1 3 "file download").2.1 (by decide) (by decide)⟩

/-- C3: for every URL whose parse yields no `netloc` (host), `_OpenStream`
fails immediately with `DownloadError`, before the attempt loop, with zero
network calls and zero sleeps, regardless of `maxRetries` and the
acceptable-status set. -/
theorem openStream_no_host (url : String) (script : List (Option RStream))
    (mr : Int) (codes : Option (List Int))
    (h : netlocOf (stripWS url) = "") :
    openStream script url mr codes =
      ⟨.errInvalidUrl ("Invalid remote server URL \"" ++ stripWS url ++
        "\"."), 0, 0⟩ := by
  unfold openStream
  simp [h]

theorem openStream_no_host_witness :
    openStream [some ⟨200, "https://u"⟩] "relative/path" 5 none =
      ⟨.errInvalidUrl "Invalid remote server URL \"relative/path\".", 0, 0⟩ := by
  have h := openStream_no_host "relative/path" [some ⟨200, "https://u"⟩] 5 none
    (by decide)
  rw [h]
  decide

/-- C1 counterexample: with `maxRetries = 2` and a stream that returns 302
three times then 200, `_OpenStream` does NOT return the 200 stream: the
first redirect falls through to the retry gate (one sleep), and the second
redirect exhausts the budget, raising the retry-exhaustion
`DownloadError` — redirects do count against `maxRetries`. -/
theorem openStream_redirect_counterexample :
    openStream [some ⟨302, "https://r/1"⟩, some ⟨302, "https://r/2"⟩,
        some ⟨302, "https://r/3"⟩, some ⟨200, "https://r/4"⟩]
      "https://host/f" 2 none =
      ⟨.errRetry "Failed to reach file download after 2 attempt(s).", 1, 2⟩ := by
  decide

lemma openStream_eq_loop (script : List (Option RStream)) (url : String)
    (mr : Int) (hnet : ¬ netlocOf (stripWS url) = "") :
    openStream script url mr none =
      openLoop [200] mr script (stripWS url) none 0 0 0 := by
  unfold openStream
  simp [hnet]

lemma openLoop_redirect (codes : List Int) (mr : Int) (loc url : String)
    (fsPrev : Option RStream) (rest : List (Option RStream))
    (a : Int) (s c : Nat) (h302 : (302 : Int) ∉ codes)
    (hsleep : attemptResource (a + 1) mr "file download" = .sleep SLEEP) :
    openLoop codes mr (some ⟨302, loc⟩ :: rest) url fsPrev a s c =
      openLoop codes mr rest loc (some ⟨302, loc⟩) (a + 1) (s + 1) (c + 1) := by
  rw [openLoop]
  simp [h302, hsleep]

lemma openLoop_accept (codes : List Int) (mr : Int) (st : RStream)
    (url : String) (fsPrev : Option RStream) (rest : List (Option RStream))
    (a : Int) (s c : Nat) (hc : st.code ∈ codes) :
    openLoop codes mr (some st :: rest) url fsPrev a s c =
      ⟨.stream st, s, c + 1⟩ := by
  rw [openLoop]
  simp [hc]

/-- C1 (amended): a 302 response updates the working URL to the redirect
target but falls through to the retry gate, so every redirect consumes one
attempt of the budget and triggers one sleep.  Given a stream returning
302 three times then 200: when the budget permits at least four attempts
(`maxRetries < 0` or `maxRetries ≥ 4`) `_OpenStream` returns the 200
stream after exactly three sleeps and four attempts; when
`0 ≤ maxRetries ≤ 3` the redirects exhaust the budget and `_OpenStream`
raises the retry-exhaustion `DownloadError` without reaching the 200. -/
theorem openStream_redirects_consume_budget
    (url l1 l2 l3 : String) (fin : RStream) (mr : Int)
    (hnet : ¬ netlocOf (stripWS url) = "") (hcode : fin.code = 200) :
    ((mr < 0 ∨ 4 ≤ mr) →
      openStream [some ⟨302, l1⟩, some ⟨302, l2⟩, some ⟨302, l3⟩, some fin]
        url mr none = ⟨.stream fin, 3, 4⟩) ∧
    (0 ≤ mr → mr ≤ 3 →
      (openStream [some ⟨302, l1⟩, some ⟨302, l2⟩, some ⟨302, l3⟩, some fin]
        url mr none).result =
        .errRetry ("Failed to reach file download after " ++ toString mr ++
          " attempt(s).")) := by
  constructor
  · intro hb
    have hs : ∀ n : Int, n < 4 → attemptResource n mr "file download" = .sleep SLEEP := by
      intro n hn
      rcases hb with h | h
      · exact attemptResource_sleep n mr _ (Or.inr h)
      · exact attemptResource_sleep n mr _ (Or.inl (by omega))
    rw [openStream_eq_loop _ _ _ hnet]
    rw [openLoop_redirect _ _ _ _ _ _ _ _ _ (by decide) (hs (0 + 1) (by omega))]
    rw [openLoop_redirect _ _ _ _ _ _ _ _ _ (by decide) (hs (0 + 1 + 1) (by omega))]
    rw [openLoop_redirect _ _ _ _ _ _ _ _ _ (by decide) (hs (0 + 1 + 1 + 1) (by omega))]
    rw [openLoop_accept _ _ _ _ _ _ _ _ _ (by simp [hcode])]
  · intro h1 h2
    rw [openStream_eq_loop _ _ _ hnet]
    interval_cases mr <;> simp [openLoop, attemptResource, SLEEP]

theorem openStream_redirects_consume_budget_witness :
    openStream [some ⟨302, "https://r/1"⟩, some ⟨302, "https://r/2"⟩,
        some ⟨302, "https://r/3"⟩, some ⟨200, "https://r/4"⟩]
      "https://host/f" 5 none = ⟨.stream ⟨200, "https://r/4"⟩, 3, 4⟩ :=
  (openStream_redirects_consume_budget "https://host/f" "https://r/1"
    "https://r/2" "https://r/3" ⟨200, "https://r/4"⟩ 5 (by decide)
    (by decide)).1 (Or.inr (by decide))

/-- Result of `_Validate`: whether `_StoreDebugInfo` was called, and the
`DownloadError` message when one was raised. -/
structure ValidateOut where
  debugStored : Bool
  error : Option String
  deriving Repr, DecidableEq

/-- Embeds `BaseDownloader._Validate`: a missing destination file or an
on-disk size different from the expected size stores debug info and raises
`DownloadError`; an exact match does neither.  The filesystem is modelled
by `fileSize`, the size of the file at the save location (`none` when the
file does not exist). -/
def validate (saveLocation : String) (fileSize : Option Nat)
    (expectedSize : Int) : ValidateOut :=
  match fileSize with
  | none => ⟨true, some ("Could not locate file at " ++ saveLocation)⟩
  | some n =>
    if (n : Int) ≠ expectedSize then
      ⟨true, some ("File size of " ++ toString n ++
        " bytes did not match expected size of " ++ toString expectedSize ++
        "!")⟩
    else ⟨false, none⟩

/-- C4: validation passes exactly when the destination file exists and its
size equals the declared content length `n` (exact equality, not `≥`), and
debug info is stored exactly on the error paths (before the error is
raised). -/
theorem validate_spec (loc : String) (fs : Option Nat) (n : Nat) :
    ((validate loc fs (n : Int)).error = none ↔ fs = some n) ∧
    ((validate loc fs (n : Int)).debugStored = true ↔
      (validate loc fs (n : Int)).error ≠ none) := by
  constructor
  · cases fs with
    | none => simp [validate]
    | some m =>
      by_cases h : (m : Int) = (n : Int)
      · have : m = n := by omega
        simp [validate, this]
      · simp [validate, h]
        omega
  · cases fs with
    | none => simp [validate]
    | some m =>
      by_cases h : (m : Int) = (n : Int) <;> simp [validate, h]

/-- An observable event on the open stream handle during `_StreamToDisk`. -/
inductive SEv where
  | read
  | close
  deriving Repr, DecidableEq

/-- Outcome of `_StreamToDisk`: success, a raised `DownloadError`, or
divergence (the content-length retry loop with unlimited retries). -/
inductive STDOutcome where
  | ok
  | err (msg : String)
  | diverge
  deriving Repr, DecidableEq

/-- Embeds the write loop of `_StreamToDisk`: each iteration reads a chunk
(scripted by its byte count), adds its length to the byte counter, breaks
on an empty chunk, and otherwise writes it.  `failAfter = some k` makes the
k-th read (0-based) raise `socket.error`.  Returns the stream events, the
bytes written, and whether a socket error occurred. -/
def writeLoop : List Nat → Option Nat → Nat → (List SEv × Nat × Bool)
  | _, some 0, bytes => ([SEv.read], bytes, true)
  | [], _, bytes => ([SEv.read], bytes, false)
  | c :: rest, fa, bytes =>
    if c = 0 then ([SEv.read], bytes, false)
    else
      let r := writeLoop rest (fa.map (fun k => k - 1)) (bytes + c)
      (SEv.read :: r.1, r.2.1, r.2.2)

/-- Embeds `BaseDownloader._StreamToDisk`: resolve the content length
(retrying via the gate when the header is missing, which diverges when
`maxRetries` is negative), open the destination, run the write loop,
translate socket errors and open failures to `DownloadError`, validate the
written size, and close the stream only after successful validation. -/
def streamToDisk (saveLocation : String) (contentLength : Option Int)
    (chunks : List Nat) (failAfter : Option Nat) (destOpenOk : Bool)
    (maxRetries : Int) : List SEv × STDOutcome :=
  match contentLength with
  | none =>
    if maxRetries < 0 then ([], .diverge)
    else ([], .err ("Failed to reach server URL after " ++
      toString maxRetries ++ " attempt(s)."))
  | some total =>
    if destOpenOk then
      let r := writeLoop chunks failAfter 0
      if r.2.2 then (r.1, .err "Socket error during download.")
      else
        match (validate saveLocation (some r.2.1) total).error with
        | some m => (r.1, .err m)
        | none => (r.1 ++ [SEv.close], .ok)
    else ([], .err ("File location could not be opened for writing: " ++
      saveLocation))

/-- Nothing is read from the stream after it has been closed. -/
def noReadAfterClose : List SEv → Bool
  | [] => true
  | SEv.read :: rest => noReadAfterClose rest
  | SEv.close :: rest => rest.all (fun e => !(e == SEv.read))

lemma writeLoop_events (chunks : List Nat) (fa : Option Nat) (b : Nat) :
    ∀ e ∈ (writeLoop chunks fa b).1, e = SEv.read := by
  induction chunks generalizing fa b with
  | nil =>
    intro e he
    match fa with
    | some 0 => simp [writeLoop] at he; simp [he]
    | some (k+1) => simp [writeLoop] at he; simp [he]
    | none => simp [writeLoop] at he; simp [he]
  | cons c rest ih =>
    intro e he
    match fa with
    | some 0 => simp [writeLoop] at he; simp [he]
    | some (k+1) =>
      by_cases hc : c = 0
      · simp [writeLoop, hc] at he; simp [he]
      · simp [writeLoop, hc] at he
        rcases he with he | he
        · simp [he]
        · exact ih _ _ e he
    | none =>
      by_cases hc : c = 0
      · simp [writeLoop, hc] at he; simp [he]
      · simp [writeLoop, hc] at he
        rcases he with he | he
        · simp [he]
        · exact ih _ _ e he

lemma noReadAfterClose_reads (l : List SEv) (h : ∀ e ∈ l, e = SEv.read) :
    noReadAfterClose l = true := by
  induction l with
  | nil => rfl
  | cons e rest ih =>
    have he : e = SEv.read := h e (by simp)
    subst he
    rw [noReadAfterClose]
    exact ih (fun e hm => h e (by simp [hm]))

lemma noReadAfterClose_reads_close (l : List SEv)
    (h : ∀ e ∈ l, e = SEv.read) :
    noReadAfterClose (l ++ [SEv.close]) = true := by
  induction l with
  | nil => rfl
  | cons e rest ih =>
    have he : e = SEv.read := h e (by simp)
    subst he
    rw [List.cons_append, noReadAfterClose]
    exact ih (fun e hm => h e (by simp [hm]))

lemma count_close_reads (l : List SEv) (h : ∀ e ∈ l, e = SEv.read) :
    l.count SEv.close = 0 := by
  rw [List.count_eq_zero]
  intro hmem
  exact absurd (h _ hmem) (by decide)

/-- C9 (amended): across all `_StreamToDisk` runs the stream handle is
never read after being closed and is closed at most once; it is closed
exactly once precisely on the success path — on the failure paths
(missing content length, destination-open failure, socket error, size
validation failure) it is not closed at all. -/
theorem streamToDisk_close_spec (loc : String) (cl : Option Int)
    (chunks : List Nat) (fa : Option Nat) (destOk : Bool) (mr : Int) :
    ((streamToDisk loc cl chunks fa destOk mr).1.count SEv.close ≤ 1) ∧
    ((streamToDisk loc cl chunks fa destOk mr).2 = .ok ↔
      (streamToDisk loc cl chunks fa destOk mr).1.count SEv.close = 1) ∧
    noReadAfterClose (streamToDisk loc cl chunks fa destOk mr).1 = true := by
  have hreads := writeLoop_events chunks fa 0
  match cl with
  | none =>
    by_cases hmr : mr < 0 <;>
      simp [streamToDisk, hmr, noReadAfterClose]
  | some total =>
    by_cases hd : destOk
    · by_cases hsock : (writeLoop chunks fa 0).2.2
      · simp [streamToDisk, hd, hsock, count_close_reads _ hreads,
          noReadAfterClose_reads _ hreads]
      · match hv : (validate loc (some (writeLoop chunks fa 0).2.1) total).error with
        | some m =>
          simp [streamToDisk, hd, hsock, hv, count_close_reads _ hreads,
            noReadAfterClose_reads _ hreads]
        | none =>
          simp [streamToDisk, hd, hsock, hv,
            noReadAfterClose_reads_close _ hreads,
            List.count_append, count_close_reads _ hreads]
    · simp [streamToDisk, hd, noReadAfterClose]

/-- C9 counterexample: a socket error mid-transfer raises `DownloadError`
with the stream left open (zero `close` events), refuting the claim that
the handle is closed exactly once on failure paths as well. -/
theorem streamToDisk_close_counterexample :
    streamToDisk "C:\\dest" (some 5) [3] (some 1) true 5 =
      ([SEv.read, SEv.read], .err "Socket error during download.") ∧
    [SEv.read, SEv.read].count SEv.close = 0 := by
  constructor <;> decide


/-- Build-context collaborator: `ReleasePath()`, `ActiveConfigPath()` and
`BinaryPath()` (already stringified) as read by `PathCompile` and
`Transform`. -/
structure BuildInfo where
  releasePath : String
  activeConfigPath : List String
  binaryPath : String
  deriving Repr, DecidableEq

/-- Model of Python `str.rstrip('/')`. -/
def rstripSlash (s : String) : String :=
  ⟨(s.data.reverse.dropWhile (fun c => c == '/')).reverse⟩

/-- Model of Python `str.lstrip('/')`. -/
def lstripSlash (s : String) : String :=
  ⟨s.data.dropWhile (fun c => c == '/')⟩

/-- Model of Python `str.strip('/')`. -/
def stripSlash (s : String) : String :=
  lstripSlash (rstripSlash s)

/-- Model of Python `'/'.join(parts)`. -/
def joinSlash : List String → String
  | [] => ""
  | [s] => s
  | s :: rest => s ++ "/" ++ joinSlash rest

/-- Embeds `PathCompile(build_info, file_name=None, base=None)`: take the
base (falling back to the release path when absent or empty), strip its
trailing slashes, append `/` plus the slash-stripped join of the active
config path when that list is nonempty, and append `/` plus the leading
slash-stripped file name when one is given (Python truthiness: an empty
file name counts as absent). -/
def PathCompile (bi : BuildInfo) (fileName : Option String := none)
    (base : Option String := none) : String :=
  let path :=
    match base with
    | none => bi.releasePath
    | some b => if b = "" then bi.releasePath else b
  let path := rstripSlash path
  let path :=
    match bi.activeConfigPath with
    | [] => path
    | sp => path ++ "/" ++ stripSlash (joinSlash sp)
  match fileName with
  | none => path
  | some f => if f = "" then path else path ++ "/" ++ lstripSlash f

/-- Whether a string ends in a slash. -/
def endsWithSlash (s : String) : Bool :=
  s.data.reverse.head? == some '/'

lemma strData_append (s t : String) : (s ++ t).data = s.data ++ t.data := by
  cases s; cases t; rfl

lemma dropWhile_cons_neg (p : Char → Bool) {a : Char} {t : List Char}
    (h : p a = false) : List.dropWhile p (a :: t) = a :: t := by
  rw [List.dropWhile_cons, h]
  simp

lemma head_dropWhile_neg {p : Char → Bool} (l : List Char) {a : Char}
    (h : (List.dropWhile p l).head? = some a) : p a = false := by
  induction l with
  | nil => simp [List.dropWhile] at h
  | cons b u ih =>
    rw [List.dropWhile_cons] at h
    by_cases hb : p b
    · rw [if_pos hb] at h
      exact ih h
    · rw [if_neg hb] at h
      simp at h
      subst h
      simpa using hb

lemma join_head_not_slash (l : List String) (hl : l ≠ [])
    (h : ∀ c ∈ l, c ≠ "" ∧ '/' ∉ c.data) :
    ∃ a t, (joinSlash l).data = a :: t ∧ (a == '/') = false := by
  match l with
  | [c] =>
    obtain ⟨hne, hns⟩ := h c (by simp)
    match hc : c.data with
    | [] => exact absurd (by cases c; cases hc; rfl) hne
    | a :: t =>
      refine ⟨a, t, by simp [joinSlash, hc], ?_⟩
      have : a ∈ c.data := by rw [hc]; simp
      simp only [beq_eq_false_iff_ne, ne_eq]
      intro hq
      exact hns (hq ▸ this)
  | c :: r :: rs =>
    obtain ⟨hne, hns⟩ := h c (by simp)
    match hc : c.data with
    | [] => exact absurd (by cases c; cases hc; rfl) hne
    | a :: t =>
      refine ⟨a, t ++ ('/' :: (joinSlash (r :: rs)).data), ?_, ?_⟩
      · show (c ++ "/" ++ joinSlash (r :: rs)).data = _
        rw [strData_append, strData_append, hc]
        simp
      · have : a ∈ c.data := by rw [hc]; simp
        simp only [beq_eq_false_iff_ne, ne_eq]
        intro hq
        exact hns (hq ▸ this)

lemma join_last_not_slash (l : List String) (hl : l ≠ [])
    (h : ∀ c ∈ l, c ≠ "" ∧ '/' ∉ c.data) :
    ∃ a t, (joinSlash l).data.reverse = a :: t ∧ (a == '/') = false := by
  induction l with
  | nil => exact absurd rfl hl
  | cons c rest ih =>
    match rest with
    | [] =>
      obtain ⟨hne, hns⟩ := h c (by simp)
      match hc : c.data.reverse with
      | [] =>
        exfalso
        have : c.data = [] := by simpa using congrArg List.reverse hc
        exact hne (by cases c; cases this; rfl)
      | a :: t =>
        refine ⟨a, t, by simp [joinSlash, hc], ?_⟩
        have : a ∈ c.data := by
          rw [← List.mem_reverse, hc]; simp
        simp only [beq_eq_false_iff_ne, ne_eq]
        intro hq
        exact hns (hq ▸ this)
    | r :: rs =>
      obtain ⟨a, t, hrev, hna⟩ := ih (by simp)
        (fun d hd => h d (by simp [hd]))
      refine ⟨a, t ++ ('/' :: c.data.reverse), ?_, hna⟩
      show (c ++ "/" ++ joinSlash (r :: rs)).data.reverse = _
      rw [strData_append, strData_append]
      simp [hrev]

lemma strip_join (l : List String) (hl : l ≠ [])
    (h : ∀ c ∈ l, c ≠ "" ∧ '/' ∉ c.data) :
    stripSlash (joinSlash l) = joinSlash l := by
  obtain ⟨a, t, hrev, hna⟩ := join_last_not_slash l hl h
  have hr : rstripSlash (joinSlash l) = joinSlash l := by
    unfold rstripSlash
    rw [hrev, dropWhile_cons_neg (fun c => c == '/') hna, ← hrev]
    cases joinSlash l
    simp
  obtain ⟨b, u, hhead, hnb⟩ := join_head_not_slash l hl h
  rw [stripSlash, hr]
  unfold lstripSlash
  rw [hhead, dropWhile_cons_neg (fun c => c == '/') hnb, ← hhead]

lemma endsWithSlash_rstrip (s : String) :
    endsWithSlash (rstripSlash s) = false := by
  unfold endsWithSlash rstripSlash
  simp only [List.reverse_reverse]
  match hh : (List.dropWhile (fun c => c == '/') s.data.reverse).head? with
  | none => simp [hh]
  | some a =>
    have := head_dropWhile_neg _ hh
    simp [hh]
    intro hq
    rw [hq] at this
    simp at this

/-- C6 (amended): when every sub-path component is nonempty and contains no
slash, `PathCompile` equals the plain join — trailing slashes stripped from
the base, exactly one `/` before the `/`-joined sub-path, and exactly one
`/` before the leading-slash-stripped file name (an empty or absent file
name adds nothing) — and with no file name the result has no trailing
slash. -/
theorem pathCompile_spec (bi : BuildInfo) (fileName base : Option String)
    (hcomp : ∀ c ∈ bi.activeConfigPath, c ≠ "" ∧ '/' ∉ c.data) :
    (PathCompile bi fileName base =
      (let eff :=
        match base with
        | none => bi.releasePath
        | some b => if b = "" then bi.releasePath else b
       let stem :=
        match bi.activeConfigPath with
        | [] => rstripSlash eff
        | _ => rstripSlash eff ++ "/" ++ joinSlash bi.activeConfigPath
       match fileName with
       | none => stem
       | some f => if f = "" then stem else stem ++ "/" ++ lstripSlash f)) ∧
    endsWithSlash (PathCompile bi none base) = false := by
  constructor
  · unfold PathCompile
    cases hacp : bi.activeConfigPath with
    | nil => rfl
    | cons c rest =>
      dsimp only
      rw [strip_join (c :: rest) (by simp) (hacp ▸ hcomp)]
      rfl
  · unfold PathCompile
    cases hacp : bi.activeConfigPath with
    | nil => exact endsWithSlash_rstrip _
    | cons c rest =>
      obtain ⟨a, t, hrev, hna⟩ :=
        join_last_not_slash (c :: rest) (by simp) (hacp ▸ hcomp)
      dsimp only
      rw [strip_join (c :: rest) (by simp) (hacp ▸ hcomp)]
      unfold endsWithSlash
      rw [strData_append, strData_append]
      simp [hrev, hna]

theorem pathCompile_spec_witness :
    PathCompile ⟨"rel", ["a", "b"], "bin"⟩ (some "f.txt") (some "https://x") =
      "https://x/a/b/f.txt" ∧
    PathCompile ⟨"rel", [], "bin"⟩ none (some "https://x/") = "https://x" := by
  constructor
  · have h := (pathCompile_spec ⟨"rel", ["a", "b"], "bin"⟩ (some "f.txt")
      (some "https://x") (by decide)).1
    rw [h]
    decide
  · have h := (pathCompile_spec ⟨"rel", [], "bin"⟩ none
      (some "https://x/") (by decide)).1
    rw [h]
    decide

/-- C6 counterexample: with the sub-path component `"/"` (whose join strips
to the empty string), `PathCompile` produces a trailing slash even though
no file name was supplied, refuting the universally quantified claim. -/
theorem pathCompile_counterexample :
    PathCompile ⟨"rel", ["/"], "bin"⟩ none (some "https://x") = "https://x/" ∧
    endsWithSlash "https://x/" = true := by
  constructor <;> decide


/-- Embeds `re.sub(r'(?<!\\)m', r, s)` for a single marker character `m`:
scan left to right, replacing each occurrence of `m` not preceded by a
backslash in the scanned string by `r` (replacements are not rescanned);
`esc` records whether the previous scanned character was a backslash. -/
def subMarker (m : Char) (r : List Char) : Bool → List Char → List Char
  | _, [] => []
  | esc, c :: rest =>
    if c = m ∧ esc = false then r ++ subMarker m r (c == '\\') rest
    else c :: subMarker m r (c == '\\') rest

/-- Embeds `re.sub(r'\\m', 'm', s)`: replace each (leftmost,
non-overlapping) two-character sequence backslash-`m` by the literal
`m`. -/
def unescMarker (m : Char) : List Char → List Char
  | [] => []
  | [c] => [c]
  | a :: b :: rest =>
    if a = '\\' ∧ b = m then b :: unescMarker m rest
    else a :: unescMarker m (b :: rest)

/-- Embeds `Transform(string, build_info)`: substitute unescaped `#` with
`PathCompile(build_info) + '/'`, unescape `\#`, substitute unescaped `@`
with `str(build_info.BinaryPath())`, then unescape `\@`, in that order. -/
def Transform (s : String) (bi : BuildInfo) : String :=
  ⟨unescMarker '@' (subMarker '@' bi.binaryPath.data false
    (unescMarker '#' (subMarker '#' (PathCompile bi none none ++ "/").data
      false s.data)))⟩

/-- Templates whose backslashes all escape a marker: every `\` is
immediately followed by `#` or `@` (the claim's balanced
escaped/unescaped markers). -/
def WFb : List Char → Bool
  | [] => true
  | a :: rest =>
    if a = '\\' then
      match rest with
      | [] => false
      | b :: rest2 => (b == '#' || b == '@') && WFb rest2
    else WFb rest

/-- Inductive view of `WFb` used for the proofs. -/
inductive WF : List Char → Prop where
  | nil : WF []
  | escH : ∀ rest, WF rest → WF ('\\' :: '#' :: rest)
  | escA : ∀ rest, WF rest → WF ('\\' :: '@' :: rest)
  | chr : ∀ c rest, c ≠ '\\' → WF rest → WF (c :: rest)

/-- One-pass specification of the full transformation: each unescaped `#`
becomes `r1`, each unescaped `@` becomes `r2`, each escaped marker becomes
the literal marker character and is never expanded. -/
def specExpand (r1 r2 : List Char) : List Char → List Char
  | [] => []
  | a :: rest =>
    if a = '\\' then
      match rest with
      | [] => ['\\']
      | b :: rest2 =>
        if b = '#' ∨ b = '@' then b :: specExpand r1 r2 rest2
        else '\\' :: b :: specExpand r1 r2 rest2
    else if a = '#' then r1 ++ specExpand r1 r2 rest
    else if a = '@' then r2 ++ specExpand r1 r2 rest
    else a :: specExpand r1 r2 rest

/-- Intermediate specification after the `#` substitution/unescape passes:
`\#` is resolved to `#`, `\@` is kept, unescaped `#` becomes `r1`. -/
def expand1 (r1 : List Char) : List Char → List Char
  | [] => []
  | a :: rest =>
    if a = '\\' then
      match rest with
      | [] => ['\\']
      | b :: rest2 =>
        if b = '#' then '#' :: expand1 r1 rest2
        else '\\' :: b :: expand1 r1 rest2
    else if a = '#' then r1 ++ expand1 r1 rest
    else a :: expand1 r1 rest

lemma WF_of_WFb : ∀ l, WFb l = true → WF l := by
  intro l
  induction l using WFb.induct with
  | case1 => intro _; exact WF.nil
  | case2 => intro hw; simp [WFb] at hw
  | case3 a rest ih =>
    intro hw
    simp only [WFb, reduceIte, Bool.and_eq_true, Bool.or_eq_true,
      beq_iff_eq] at hw
    rcases hw with ⟨hb | hb, hwf⟩ <;> subst hb
    · exact WF.escH rest (ih hwf)
    · exact WF.escA rest (ih hwf)
  | case4 a rest ha ih =>
    intro hw
    unfold WFb at hw
    rw [if_neg ha] at hw
    exact WF.chr a rest ha (ih hw)

lemma subMarker_skip (m : Char) (r : List Char) (a b : List Char)
    (ha : ∀ c ∈ a, c ≠ m ∧ c ≠ '\\') :
    subMarker m r false (a ++ b) = a ++ subMarker m r false b := by
  induction a with
  | nil => rfl
  | cons c t ih =>
    obtain ⟨hcm, hcb⟩ := ha c (by simp)
    rw [List.cons_append, subMarker, if_neg (by simp [hcm])]
    have : (c == '\\') = false := by simp [hcb]
    rw [this, ih (fun d hd => ha d (by simp [hd]))]
    simp

lemma unescMarker_skip (m : Char) (a b : List Char) (ha : '\\' ∉ a) :
    unescMarker m (a ++ b) = a ++ unescMarker m b := by
  induction a with
  | nil => rfl
  | cons c t ih =>
    have hc : c ≠ '\\' := fun hq => ha (by simp [hq])
    match h : t ++ b with
    | [] =>
      obtain ⟨ht, hb⟩ := List.append_eq_nil.mp h
      subst ht; subst hb
      rfl
    | d :: u =>
      rw [List.cons_append, h, unescMarker, if_neg (by simp [hc]), ← h,
        ih (fun hq => ha (by simp [hq]))]
      simp

lemma expand1_esc (r1 : List Char) (b : Char) (rest : List Char) :
    expand1 r1 ('\\' :: b :: rest) =
      if b = '#' then '#' :: expand1 r1 rest
      else '\\' :: b :: expand1 r1 rest := by
  simp [expand1]

lemma expand1_hash (r1 : List Char) (rest : List Char) :
    expand1 r1 ('#' :: rest) = r1 ++ expand1 r1 rest := by
  cases rest <;> simp [expand1]

lemma expand1_chr (r1 : List Char) (c : Char) (rest : List Char)
    (hc : c ≠ '\\') (hch : c ≠ '#') :
    expand1 r1 (c :: rest) = c :: expand1 r1 rest := by
  cases rest <;> simp [expand1, hc, hch]

lemma specExpand_esc (r1 r2 : List Char) (b : Char) (rest : List Char) :
    specExpand r1 r2 ('\\' :: b :: rest) =
      if b = '#' ∨ b = '@' then b :: specExpand r1 r2 rest
      else '\\' :: b :: specExpand r1 r2 rest := by
  simp [specExpand]

lemma specExpand_hash (r1 r2 : List Char) (rest : List Char) :
    specExpand r1 r2 ('#' :: rest) = r1 ++ specExpand r1 r2 rest := by
  cases rest <;> simp [specExpand]

lemma specExpand_at (r1 r2 : List Char) (rest : List Char) :
    specExpand r1 r2 ('@' :: rest) = r2 ++ specExpand r1 r2 rest := by
  cases rest <;> simp [specExpand]

lemma specExpand_chr (r1 r2 : List Char) (c : Char) (rest : List Char)
    (hc : c ≠ '\\') (hch : c ≠ '#') (hca : c ≠ '@') :
    specExpand r1 r2 (c :: rest) = c :: specExpand r1 r2 rest := by
  cases rest <;> simp [specExpand, hc, hch, hca]

lemma stage1 (r1 : List Char) (hr1 : '\\' ∉ r1) {s : List Char}
    (hwf : WF s) :
    unescMarker '#' (subMarker '#' r1 false s) = expand1 r1 s := by
  induction hwf with
  | nil => rfl
  | escH rest h ih =>
    rw [subMarker, if_neg (by simp), subMarker, if_neg (by simp)]
    show unescMarker '#' ('\\' :: '#' :: subMarker '#' r1 false rest) = _
    rw [unescMarker, if_pos (by simp), ih, expand1_esc]
    simp
  | escA rest h ih =>
    rw [subMarker, if_neg (by simp), subMarker, if_neg (by simp)]
    show unescMarker '#' ('\\' :: '@' :: subMarker '#' r1 false rest) = _
    rw [unescMarker, if_neg (by simp)]
    have hskip := unescMarker_skip '#' ['@'] (subMarker '#' r1 false rest)
      (by simp)
    rw [List.singleton_append] at hskip
    rw [hskip, ih, expand1_esc]
    simp
  | chr c rest hc h ih =>
    by_cases hch : c = '#'
    · subst hch
      rw [subMarker, if_pos (by simp),
        unescMarker_skip '#' r1 _ hr1, show (('#' : Char) == '\\') = false
          by decide, ih]
      rw [expand1_hash]
    · rw [subMarker, if_neg (by simp [hch]),
        show ((c == '\\') = false) by simp [hc]]
      have hskip := unescMarker_skip '#' [c] (subMarker '#' r1 false rest)
        (fun hq => hc (List.mem_singleton.mp hq).symm)
      rw [List.singleton_append] at hskip
      rw [hskip, ih, expand1_chr r1 c rest hc hch]
      rfl

lemma stage2 (r1 r2 : List Char) (hr1 : '\\' ∉ r1) (hr1a : '@' ∉ r1)
    (hr2 : '\\' ∉ r2) {s : List Char} (hwf : WF s) :
    unescMarker '@' (subMarker '@' r2 false (expand1 r1 s)) =
      specExpand r1 r2 s := by
  induction hwf with
  | nil => rfl
  | escH rest h ih =>
    rw [show expand1 r1 ('\\' :: '#' :: rest) = '#' :: expand1 r1 rest by
      rw [expand1_esc]; simp]
    rw [subMarker, if_neg (by simp), show (('#' : Char) == '\\') = false
      by decide]
    have hskip := unescMarker_skip '@' ['#']
      (subMarker '@' r2 false (expand1 r1 rest)) (by simp)
    rw [List.singleton_append] at hskip
    rw [hskip, ih, specExpand_esc]
    simp
  | escA rest h ih =>
    rw [show expand1 r1 ('\\' :: '@' :: rest) = '\\' :: '@' :: expand1 r1 rest
      by rw [expand1_esc]; simp]
    rw [subMarker, if_neg (by simp), subMarker, if_neg (by simp)]
    show unescMarker '@' ('\\' :: '@' :: subMarker '@' r2 false
      (expand1 r1 rest)) = _
    rw [unescMarker, if_pos (by simp), ih, specExpand_esc]
    simp
  | chr c rest hc h ih =>
    by_cases hch : c = '#'
    · subst hch
      rw [expand1_hash]
      rw [subMarker_skip '@' r2 r1 _ (fun d hd => ⟨fun hq => hr1a (hq ▸ hd),
        fun hq => hr1 (hq ▸ hd)⟩)]
      rw [unescMarker_skip '@' r1 _ hr1, ih, specExpand_hash]
    · by_cases hca : c = '@'
      · subst hca
        rw [expand1_chr r1 '@' rest (by decide) (by decide)]
        rw [subMarker, if_pos (by simp), show (('@' : Char) == '\\') = false
          by decide]
        rw [unescMarker_skip '@' r2 _ hr2, ih, specExpand_at]
      · rw [expand1_chr r1 c rest hc hch]
        rw [subMarker, if_neg (by simp [hca]),
          show ((c == '\\') = false) by simp [hc]]
        have hskip := unescMarker_skip '@' [c]
          (subMarker '@' r2 false (expand1 r1 rest))
          (fun hq => hc (List.mem_singleton.mp hq).symm)
        rw [List.singleton_append] at hskip
        rw [hskip, ih, specExpand_chr r1 r2 c rest hc hch hca]
        rfl

lemma specExpand_no_bs (r1 r2 : List Char) (hr1 : '\\' ∉ r1)
    (hr2 : '\\' ∉ r2) {s : List Char} (hwf : WF s) :
    '\\' ∉ specExpand r1 r2 s := by
  induction hwf with
  | nil => simp [specExpand]
  | escH rest h ih =>
    rw [show specExpand r1 r2 ('\\' :: '#' :: rest) =
      '#' :: specExpand r1 r2 rest by rw [specExpand_esc]; simp]
    simp only [List.mem_cons]
    rintro (hq | hq)
    · cases hq
    · exact ih hq
  | escA rest h ih =>
    rw [show specExpand r1 r2 ('\\' :: '@' :: rest) =
      '@' :: specExpand r1 r2 rest by rw [specExpand_esc]; simp]
    simp only [List.mem_cons]
    rintro (hq | hq)
    · cases hq
    · exact ih hq
  | chr c rest hc h ih =>
    by_cases hch : c = '#'
    · subst hch
      rw [specExpand_hash]
      simp only [List.mem_append]
      rintro (hq | hq)
      · exact hr1 hq
      · exact ih hq
    · by_cases hca : c = '@'
      · subst hca
        rw [specExpand_at]
        simp only [List.mem_append]
        rintro (hq | hq)
        · exact hr2 hq
        · exact ih hq
      · rw [specExpand_chr r1 r2 c rest hc hch hca]
        simp only [List.mem_cons]
        rintro (hq | hq)
        · exact hc hq.symm
        · exact ih hq

/-- C5: on templates whose backslashes all escape markers, and when the
compiled release path (plus separator) and the stringified binary root are
free of `\`, `#` and `@`, `Transform` equals the one-pass expansion: every
unescaped `#` becomes the compiled release path followed by `/`, every
unescaped `@` becomes the binary-storage root, every escaped marker
becomes its literal character (never expanded, since expansion precedes
unescaping), and no backslash survives in the output. -/
theorem Transform_spec (s : String) (bi : BuildInfo)
    (hwf : WFb s.data = true)
    (hr1 : ∀ c ∈ (PathCompile bi none none ++ "/").data,
      c ≠ '\\' ∧ c ≠ '#' ∧ c ≠ '@')
    (hr2 : ∀ c ∈ bi.binaryPath.data, c ≠ '\\' ∧ c ≠ '#' ∧ c ≠ '@') :
    (Transform s bi).data =
      specExpand (PathCompile bi none none ++ "/").data bi.binaryPath.data
        s.data ∧
    '\\' ∉ (Transform s bi).data := by
  have hwf' := WF_of_WFb _ hwf
  have hb1 : '\\' ∉ (PathCompile bi none none ++ "/").data :=
    fun hq => (hr1 _ hq).1 rfl
  have ha1 : '@' ∉ (PathCompile bi none none ++ "/").data :=
    fun hq => (hr1 _ hq).2.2 rfl
  have hb2 : '\\' ∉ bi.binaryPath.data := fun hq => (hr2 _ hq).1 rfl
  have hmain : (Transform s bi).data =
      specExpand (PathCompile bi none none ++ "/").data bi.binaryPath.data
        s.data := by
    show unescMarker '@' (subMarker '@' bi.binaryPath.data false
      (unescMarker '#' (subMarker '#' (PathCompile bi none none ++ "/").data
        false s.data))) = _
    rw [stage1 _ hb1 hwf', stage2 _ _ hb1 ha1 hb2 hwf']
  refine ⟨hmain, ?_⟩
  rw [hmain]
  exact specExpand_no_bs _ _ hb1 hb2 hwf'

theorem Transform_spec_witness :
    Transform "\\#x#@y\\@" ⟨"rel", ["a"], "bin"⟩ = "#xrel/a/biny@" := by
  have h := (Transform_spec "\\#x#@y\\@" ⟨"rel", ["a"], "bin"⟩ (by decide)
    (by decide) (by decide)).1
  apply String.ext
  rw [h]
  decide


/-- Embeds `VerifyShaHash`: read the file in 4 MiB chunks feeding a SHA-256
object (modelled by the abstract digest function `sha256hex` applied to the
concatenation of the chunks), returning `false` on a read failure (the
caught `IOError`); otherwise lower-case the expected digest and compare it
to the computed hex digest. -/
def VerifyShaHash (sha256hex : List UInt8 → String)
    (readChunks : String → Option (List (List UInt8)))
    (filePath expected : String) : Bool :=
  match readChunks filePath with
  | none => false
  | some chunks =>
    let fileHash := sha256hex chunks.flatten
    let expected : String := ⟨expected.data.map Char.toLower⟩
    fileHash == expected

/-- C7: `VerifyShaHash` returns true exactly when the file is readable and
its digest equals the lower-cased expected string; an unreadable path
yields `false` (never an exception); the result only depends on the
expected value up to case. -/
theorem verifyShaHash_spec (hash : List UInt8 → String)
    (readChunks : String → Option (List (List UInt8))) (p e : String) :
    (readChunks p = none → VerifyShaHash hash readChunks p e = false) ∧
    (∀ cs, readChunks p = some cs →
      (VerifyShaHash hash readChunks p e = true ↔
        hash cs.flatten = ⟨e.data.map Char.toLower⟩)) ∧
    (∀ e2 : String, e.data.map Char.toLower = e2.data.map Char.toLower →
      VerifyShaHash hash readChunks p e = VerifyShaHash hash readChunks p e2)
    := by
  refine ⟨fun h => by simp [VerifyShaHash, h], ?_, ?_⟩
  · intro cs hcs
    simp [VerifyShaHash, hcs]
  · intro e2 he
    cases hr : readChunks p <;> simp [VerifyShaHash, hr, he]

theorem verifyShaHash_spec_witness :
    VerifyShaHash (fun _ => "abc") (fun _ => some [[1], [2]]) "f" "ABC" =
      true ∧
    VerifyShaHash (fun _ => "abc") (fun _ => none) "f" "abc" = false :=
  ⟨((verifyShaHash_spec (fun _ => "abc") (fun _ => some [[1], [2]]) "f"
      "ABC").2.1 [[1], [2]] rfl).mpr (by decide),
   (verifyShaHash_spec (fun _ => "abc") (fun _ => none) "f" "abc").1 rfl⟩

/-- First action taken by `DownloadFile` after dispatch: either a network
stream is opened (with the effective URL and retry budget) or the
local-copy collaborator is invoked. -/
inductive DLStep where
  | openNet (url : String) (maxRetries : Int)
  | copyLocal (src dst : String)
  deriving Repr, DecidableEq

/-- Embeds `_SetUrl`: with the `use_signed_url` flag unset the URL is
returned unchanged; otherwise the configured server prefix (with `/`
appended) is stripped from the URL when present and the remainder is
signed by the BeyondCorp collaborator; a `BCError` from signing is
re-raised as `DownloadError`. -/
def SetUrl (useSignedUrl : Bool) (configServer : String)
    (getSignedUrl : String → Except String String) (url : String) :
    Except String String :=
  if useSignedUrl = false then .ok url
  else
    let cs := configServer ++ "/"
    let start := if startsWithS url cs then cs.data.length else 0
    getSignedUrl ⟨url.data.drop start⟩

/-- Embeds the dispatch of `DownloadFile`: remote locators (per `IsRemote`)
are opened as network streams — with the URL replaced by its signed
variant and the retry budget made unlimited (`-1`) when the BeyondCorp
check reports enabled — and every other locator goes to the local-copy
collaborator, whose failure is re-raised as `DownloadError`. -/
def DownloadFile (bcEnabled useSignedUrl : Bool) (configServer : String)
    (getSignedUrl : String → Except String String)
    (copyFile : String → String → Except String Unit)
    (url saveLocation : String) (maxRetries : Int) : Except String DLStep :=
  if IsRemote url then
    if bcEnabled then
      match SetUrl useSignedUrl configServer getSignedUrl url with
      | .error e => .error e
      | .ok u => .ok (.openNet u (-1))
    else .ok (.openNet url maxRetries)
  else
    match copyFile url saveLocation with
    | .ok _ => .ok (.copyLocal url saveLocation)
    | .error e => .error e

/-- C8: for every remote download with the BeyondCorp check enabled (and
the signed-URL flag set), `DownloadFile` opens the stream with the signed
variant of the URL — obtained from the collaborator after stripping the
configured server prefix — and an unlimited (negative) retry budget; a
signing failure surfaces as `DownloadError`. -/
theorem downloadFile_beyondcorp (cfg : String)
    (sign : String → Except String String)
    (copy : String → String → Except String Unit)
    (url save : String) (mr : Int) (hrem : IsRemote url = true) :
    (∀ s, sign ⟨url.data.drop (if startsWithS url (cfg ++ "/") then
        (cfg ++ "/").data.length else 0)⟩ = .ok s →
      DownloadFile true true cfg sign copy url save mr =
        .ok (.openNet s (-1))) ∧
    (∀ e, sign ⟨url.data.drop (if startsWithS url (cfg ++ "/") then
        (cfg ++ "/").data.length else 0)⟩ = .error e →
      DownloadFile true true cfg sign copy url save mr = .error e) := by
  constructor <;> intro x hx
  all_goals
    simp only [DownloadFile, SetUrl, hrem, reduceIte]
    rw [hx]
    simp

theorem downloadFile_beyondcorp_witness :
    DownloadFile true true "https://c/s" (fun s => .ok ("signed:" ++ s))
      (fun _ _ => .ok ()) "https://c/s/x.bin" "C:\\t" 5 =
      .ok (.openNet "signed:x.bin" (-1)) :=
  (downloadFile_beyondcorp "https://c/s" (fun s => .ok ("signed:" ++ s))
    (fun _ _ => .ok ()) "https://c/s/x.bin" "C:\\t" 5 (by decide)).1
    "signed:x.bin" (by rfl)

/-- C10: `DownloadFile` dispatches solely on `IsRemote`: every locator that
is not remote — whether or not it matches the drive-letter `IsLocal`
pattern, which `DownloadFile` never consults — is handed to the local-copy
collaborator, and no network stream is ever opened for it. -/
theorem downloadFile_local_dispatch (bc us : Bool) (cfg : String)
    (sign : String → Except String String)
    (copy : String → String → Except String Unit)
    (url save : String) (mr : Int) (hrem : IsRemote url = false) :
    (copy url save = .ok () →
      DownloadFile bc us cfg sign copy url save mr =
        .ok (.copyLocal url save)) ∧
    (∀ e, copy url save = .error e →
      DownloadFile bc us cfg sign copy url save mr = .error e) ∧
    (∀ u m, DownloadFile bc us cfg sign copy url save mr ≠
      .ok (.openNet u m)) := by
  refine ⟨fun h => by simp [DownloadFile, hrem, h],
    fun e he => by simp [DownloadFile, hrem, he], fun u m => ?_⟩
  simp only [DownloadFile, hrem, Bool.false_eq_true, if_false]
  cases copy url save <;> simp

theorem downloadFile_local_dispatch_witness :
    IsLocal "relative/path" = false ∧
    DownloadFile true true "https://c" (fun s => .ok s) (fun _ _ => .ok ())
      "relative/path" "C:\\t" 5 =
      .ok (.copyLocal "relative/path" "C:\\t") :=
  ⟨by decide,
   (downloadFile_local_dispatch true true "https://c" (fun s => .ok s)
     (fun _ _ => .ok ()) "relative/path" "C:\\t" 5 (by decide)).1 rfl⟩


end GlazierDownload
